import Mathlib

/-!
Verification of the Krogoco-Ics calendar scraper
(`src/krog_company_ics/krogoco_ics.py`).

The Python module is shallowly embedded below:

* character classes (`\d`, `\s`, `\w`) are modelled on their ASCII meaning,
  which covers every character the scraper's regexes are applied to;
* the four `re.search` patterns of `_parse_time_range` and the date
  pattern of `scrape_events` are modelled as executable left-to-right
  scanners with the exact greedy/backtracking semantics of the patterns
  (each alternative that Python's engine would try is tried in the same
  order; where two alternatives are mutually exclusive this is noted);
* `datetime.date` is modelled as a year/month/day record with the
  validation performed by the Python constructor, and `date - timedelta(1)`
  as `predDay`;
* `scrape_events` is modelled as a fold over the sequence of `<h3>` nodes,
  each node exposing its flattened text and an optional `(href, text)`
  link, with `ValueError` from the `date` constructor modelled as
  `Except.error`.
-/

namespace Krogoco

/-- ASCII decimal digit, the model of the regex class `\d`. -/
def isDigitChar (c : Char) : Bool :=
  48 ≤ c.toNat && c.toNat ≤ 57

/-- Whitespace, the model of the regex class `\s`
(space, tab, newline, carriage return, vertical tab, form feed). -/
def isSpaceChar (c : Char) : Bool :=
  c = ' ' || c = '\t' || c = '\n' || c = '\r' || c.toNat = 11 || c.toNat = 12

/-- Word character, the model of `\w` used by the `\b` boundaries of the
date pattern (ASCII letters, digits and underscore). -/
def isWordChar (c : Char) : Bool :=
  c.isAlphanum || c = '_'

/-- Hyphen or en dash, the character class `[-–]`. -/
def isDashChar (c : Char) : Bool :=
  c = '-' || c = '–'

/-- Dot or colon, the character class `[.:]`. -/
def isSepChar (c : Char) : Bool :=
  c = '.' || c = ':'

/-- Numeric value of a decimal digit string, the model of Python `int`
on the captured groups (which are always ASCII digit strings). -/
def digitsToNat (g : List Char) : Nat :=
  g.foldl (fun acc c => acc * 10 + (c.toNat - 48)) 0

/-- The model of the f-string format `{n:02d}`: decimal representation
left-padded with zeros to width two. -/
def fmt02 (n : Nat) : String :=
  if n < 10 then "0" ++ Nat.repr n else Nat.repr n

/-- Prefix test: `startsWithList p s` is true when `p` is an initial segment of `s`
(the model of Python `str.startswith`). -/
def startsWithList : List Char → List Char → Bool
  | [], _ => true
  | _ :: _, [] => false
  | p :: ps, s :: ss => p = s && startsWithList ps ss

/-- Substring test: `containsSub needle hay` is true when `needle` occurs as a contiguous
substring of `hay` (the model of Python's `in` on strings). -/
def containsSub (needle : List Char) : List Char → Bool
  | [] => startsWithList needle []
  | c :: cs => startsWithList needle (c :: cs) || containsSub needle cs

/-! ## Dates (`datetime.date`) -/

/-- A calendar date, the model of `datetime.date`. -/
structure Date where
  year : Nat
  month : Nat
  day : Nat
deriving DecidableEq, Repr

/-- Gregorian leap-year rule. -/
def isLeapYear (y : Nat) : Bool :=
  y % 4 = 0 && (y % 100 ≠ 0 || y % 400 = 0)

/-- Number of days in a month. -/
def daysInMonth (year month : Nat) : Nat :=
  if month = 2 then (if isLeapYear year then 29 else 28)
  else if month = 4 ∨ month = 6 ∨ month = 9 ∨ month = 11 then 30
  else 31

/-- Validity check of the `datetime.date` constructor
(`MINYEAR = 1`, `MAXYEAR = 9999`). -/
def isValidDate (year month day : Nat) : Bool :=
  1 ≤ year && year ≤ 9999 && 1 ≤ month && month ≤ 12 &&
    1 ≤ day && day ≤ daysInMonth year month

/-- The `datetime.date` constructor: raises `ValueError` (modelled as
`Except.error`) on an impossible calendar date. -/
def mkDate (year month day : Nat) : Except String Date :=
  if isValidDate year month day then .ok ⟨year, month, day⟩
  else .error "ValueError: invalid date"

/-- The previous day, `d - timedelta(days=1)`, for a valid date `d`. -/
def predDay (d : Date) : Date :=
  if 1 < d.day then ⟨d.year, d.month, d.day - 1⟩
  else if 1 < d.month then ⟨d.year, d.month - 1, daysInMonth d.year (d.month - 1)⟩
  else ⟨d.year - 1, 12, 31⟩

/-- Strict comparison of dates, the model of `<` on `datetime.date`
(lexicographic on year, month, day). -/
def dateLt (a b : Date) : Bool :=
  decide (a.year < b.year ∨ (a.year = b.year ∧
    (a.month < b.month ∨ (a.month = b.month ∧ a.day < b.day))))

/-- Non-strict comparison of dates. -/
def dateLe (a b : Date) : Bool :=
  decide (a.year < b.year ∨ (a.year = b.year ∧
    (a.month < b.month ∨ (a.month = b.month ∧ a.day ≤ b.day))))

/-- The source's `_last_day_of_month(d, months_ahead)`: month
arithmetic with carry, then "first day of the *next* month minus one
day".  The first day of the next month is built with the validating
`date()` constructor, which raises `ValueError` when the year leaves
`1..9999` (the subsequent `- timedelta(days=1)` never fails, since the
constructed date is the first of a month of a year `≥ 2`). -/
def _last_day_of_month (d : Date) (months_ahead : Nat) : Except String Date :=
  let month := d.month + months_ahead
  let year := d.year + (month - 1) / 12
  let month2 := (month - 1) % 12 + 1
  if month2 = 12 then (mkDate (year + 1) 1 1).map predDay
  else (mkDate year (month2 + 1) 1).map predDay

/-- The horizon as the spec words it: "the last calendar day of the month
that is `monthsAhead` months after `d`'s month (year overflow handled by
normal month-arithmetic carry)".  Stated independently of
`_last_day_of_month` for the refinement claim. -/
def specLastDay (d : Date) (monthsAhead : Nat) : Date :=
  let m0 := d.month - 1 + monthsAhead
  ⟨d.year + m0 / 12, m0 % 12 + 1, daysInMonth (d.year + m0 / 12) (m0 % 12 + 1)⟩

/-! ## The `re.search` patterns of `_parse_time_range`

Each `...At` function tries to match its pattern at the head of the list,
returning the captured groups; `searchPos` scans start positions left to
right, which is exactly `re.search`'s strategy (first matching start
position wins). -/

/-- Model of `\s*` before a character that is never whitespace: the greedy run is
maximal and never backtracks, so `dropWhile` is exact. -/
def skipSpaces (cs : List Char) : List Char :=
  cs.dropWhile isSpaceChar

/-- Model of `\d{1,2}[.:]\d{2}` at the head; returns (captured substring, rest).
The greedy `\d{1,2}` tries two digits first; the two alternatives are
mutually exclusive (the second character is a digit in one and `.`/`:` in
the other), so no later backtracking between them can occur. -/
def timeTokAt : List Char → Option (List Char × List Char)
  | a :: b :: c :: d :: e :: rest =>
    if isDigitChar a && isDigitChar b && isSepChar c && isDigitChar d && isDigitChar e then
      some ([a, b, c, d, e], rest)
    else if isDigitChar a && isSepChar b && isDigitChar c && isDigitChar d then
      some ([a, b, c, d], e :: rest)
    else none
  | [a, b, c, d] =>
    if isDigitChar a && isSepChar b && isDigitChar c && isDigitChar d then
      some ([a, b, c, d], [])
    else none
  | _ => none

/-- Pattern 1, `(\d{1,2}[.:]\d{2})\s*[-–]\s*(\d{1,2}[.:]\d{2})`, tried at
one start position. -/
def fullRangeAt (cs : List Char) : Option (List Char × List Char) :=
  match timeTokAt cs with
  | some (g1, rest) =>
    match skipSpaces rest with
    | d :: rest2 =>
      if isDashChar d then
        match timeTokAt (skipSpaces rest2) with
        | some (g2, _) => some (g1, g2)
        | none => none
      else none
    | [] => none
  | none => none

/-- The negative lookahead `(?!\d|[.:/])`: succeeds when the next character is not a digit and
not `.`/`:`/`/` (or there is no next character). -/
def lookaheadOk : List Char → Bool
  | [] => true
  | c :: _ => !(isDigitChar c || c = '.' || c = ':' || c = '/')

/-- Model of `(\d{1,2})(?!\d|[.:/])` at the head, greedy.  When two digits match
but the lookahead fails, Python backtracks to one digit — whose lookahead
then sees the second digit and fails too, so the whole position fails. -/
def hourTok2At : List Char → Option (List Char)
  | a :: b :: rest =>
    if isDigitChar a && isDigitChar b then
      if lookaheadOk rest then some [a, b] else none
    else if isDigitChar a && lookaheadOk (b :: rest) then some [a]
    else none
  | [a] => if isDigitChar a then some [a] else none
  | [] => none

/-- Model of `\s*[-–]\s*(\d{1,2})(?!\d|[.:/])` after the first hour group. -/
def hourDashTail (g1 : List Char) (rest : List Char) : Option (List Char × List Char) :=
  match skipSpaces rest with
  | d :: rest2 =>
    if isDashChar d then
      match hourTok2At (skipSpaces rest2) with
      | some g2 => some (g1, g2)
      | none => none
    else none
  | [] => none

/-- Model of `(\d{1,2})\s*[-–]\s*(\d{1,2})(?!\d|[.:/])`.  The first `(\d{1,2})` is
greedy; if two digits match but the tail fails, the one-digit
backtracking alternative leaves a digit where the dash must be, so it
fails as well and the position fails. -/
def shortRangeDigits : List Char → Option (List Char × List Char)
  | a :: b :: rest =>
    if isDigitChar a && isDigitChar b then hourDashTail [a, b] rest
    else if isDigitChar a then hourDashTail [a] (b :: rest)
    else none
  | [a] => if isDigitChar a then hourDashTail [a] [] else none
  | [] => none

/-- Pattern 2, `[Kk]l\.?\s*(\d{1,2})\s*[-–]\s*(\d{1,2})(?!\d|[.:/])`,
tried at one start position.  `\.?` is greedy; skipping a present `.`
cannot succeed when consuming it fails (`\s*\d` cannot match at `.`), so
consuming it when present is exact. -/
def shortRangeAt : List Char → Option (List Char × List Char)
  | k :: l :: rest =>
    if (k = 'K' || k = 'k') && l = 'l' then
      match rest with
      | '.' :: rest2 => shortRangeDigits (skipSpaces rest2)
      | _ => shortRangeDigits (skipSpaces rest)
    else none
  | _ => none

/-- Model of `(\d{1,2})\+` at the head, greedy.  With two digits matched, `\+`
must follow; the one-digit backtracking alternative would need `+` where
the second digit stands, so it fails. -/
def hintHourAt : List Char → Option (List Char)
  | a :: b :: rest =>
    if isDigitChar a && isDigitChar b then
      match rest with
      | '+' :: _ => some [a, b]
      | _ => none
    else if isDigitChar a && b = '+' then some [a]
    else none
  | _ => none

/-- Pattern 3, `(\d{1,2}[.:]\d{2})\s*,\s*(\d{1,2})\+`, tried at one start
position. -/
def hintAt (cs : List Char) : Option (List Char × List Char) :=
  match timeTokAt cs with
  | some (g1, rest) =>
    match skipSpaces rest with
    | ',' :: rest2 =>
      match hintHourAt (skipSpaces rest2) with
      | some g2 => some (g1, g2)
      | none => none
    | _ => none
  | none => none

/-- Pattern 4, `(\d{1,2}[.:]\d{2})`, tried at one start position. -/
def singleTimeAt (cs : List Char) : Option (List Char) :=
  (timeTokAt cs).map Prod.fst

/-- Model of `re.search`: try the pattern at every start position from the left,
first success wins.  (No pattern here matches the empty suffix, so the
position past the last character need not be tried.) -/
def searchPos {α : Type} (f : List Char → Option α) : List Char → Option α
  | [] => none
  | c :: cs =>
    match f (c :: cs) with
    | some r => some r
    | none => searchPos f cs

/-! ## `_normalize_time` and `_parse_time_range` -/

/-- The source's `t.replace(".", ":")`. -/
def _normalize_time (t : String) : String :=
  ⟨t.toList.map fun c => if c = '.' then ':' else c⟩

/-- The source's `_parse_time_range(text)`: the four patterns above, attempted in
strict priority order, first match wins; returns
`(start_time, end_time, all_day)`. -/
def _parse_time_range (text : String) : Option String × Option String × Bool :=
  let cs := text.toList
  match searchPos fullRangeAt cs with
  | some (g1, g2) => (some (_normalize_time ⟨g1⟩), some (_normalize_time ⟨g2⟩), false)
  | none =>
    match searchPos shortRangeAt cs with
    | some (g1, g2) =>
      (some (fmt02 (digitsToNat g1) ++ ":00"), some (fmt02 (digitsToNat g2) ++ ":00"), false)
    | none =>
      match searchPos hintAt cs with
      | some (g1, g2) =>
        (some (_normalize_time ⟨g1⟩), some (fmt02 (digitsToNat g2) ++ ":00"), false)
      | none =>
        match searchPos singleTimeAt cs with
        | some g1 => (some (_normalize_time ⟨g1⟩), none, false)
        | none => (none, none, true)

/-! ## The date pattern of `scrape_events` -/

/-- Model of `\b(\d{2})/(\d{2})\b` at one start position.  The first `\b` reduces
to "the previous character is not a word character (or there is none)"
because the character after it must be a digit; the second reduces to
"the next character is not a word character (or there is none)".
Returns `(day, month)` as `(int(group 1), int(group 2))`. -/
def dateAt (prevIsWord : Bool) : List Char → Option (Nat × Nat)
  | d1 :: d2 :: s :: m1 :: m2 :: rest =>
    if !prevIsWord && isDigitChar d1 && isDigitChar d2 && s = '/' &&
        isDigitChar m1 && isDigitChar m2 &&
        (match rest with | [] => true | c :: _ => !isWordChar c) then
      some (digitsToNat [d1, d2], digitsToNat [m1, m2])
    else none
  | _ => none

/-- Model of `re.search` for the date pattern, carrying the previous character's
word-character status for the `\b` boundary. -/
def searchDateAux (prevIsWord : Bool) : List Char → Option (Nat × Nat)
  | [] => none
  | c :: cs =>
    match dateAt prevIsWord (c :: cs) with
    | some r => some r
    | none => searchDateAux (isWordChar c) cs

/-- Model of `re.search(r"\b(\d{2})/(\d{2})\b", txt)`, returning `(day, month)`. -/
def searchDate (cs : List Char) : Option (Nat × Nat) :=
  searchDateAux false cs

/-! ## `scrape_events` -/

/-- A single scraped calendar event (`CalendarEvent` dataclass). -/
structure CalendarEvent where
  date : Date
  title : String
  url : String
  all_day : Bool := true
  start_time : Option String := none
  end_time : Option String := none
deriving DecidableEq, Repr

/-- One `<h3>` node of the parsed document, as the markup collaborator
exposes it: the node's flattened text (`h.get_text(" ", True)`) and the
first contained link with an `href` attribute, as
`(href, link text)` (`h.find("a", href=True)`). -/
structure H3 where
  text : String
  link : Option (String × String) := none
deriving DecidableEq, Repr

/-- The scraper class attribute `BASE_URL`. -/
def BASE_URL : String := "https://krogoco.se"

/-- Model of `str.casefold` on its ASCII behaviour (lower-casing). -/
def casefold (s : String) : String :=
  ⟨s.toList.map Char.toLower⟩

/-! ### `urllib.parse.urljoin(BASE_URL, url)` for a `/`-prefixed `url`

The base `https://krogoco.se` parses to scheme `https`, netloc
`krogoco.se` and an empty path/params/query/fragment.  A target that
starts with `/` can never carry a scheme of its own (a scheme would
require every character before the first `:` to be a scheme character,
and `/` is not one), so `urljoin` always proceeds to the merge:

* `urlsplit` first deletes every tab, CR and LF from the url;
* a `//`-prefixed target is a network-path reference: its netloc runs to
  the first `/`, `?` or `#`; when non-empty, the result is
  `https://<netloc><rest>` with no dot-segment resolution (only the
  params/query/fragment re-assembly of `urlunparse`);
* otherwise the path (the part before any `#` and `?`, with the
  params after the last `;` of its final segment split off) has its `.`
  and `..` segments resolved, is re-prefixed with `/` when the
  resolution consumed the leading empty segment, and is re-joined with
  the base netloc and the target's params, query and fragment; an empty
  query (`?` with nothing after it) or fragment is dropped.

CPython additionally raises `ValueError` for a netloc with unbalanced
`[`/`]` brackets, an invalid bracketed host or a non-ASCII netloc that
normalizes unsafely; this model stays total there (such a scrape crashes
in Python and returns no event list, and no theorem below asserts a
value for those inputs). -/

/-- The tab/CR/LF deletion `urlsplit` applies to its input. -/
def stripUnsafe (cs : List Char) : List Char :=
  cs.filter fun c => !(c = '\t' || c = '\r' || c = '\n')

/-- Split a list at the first occurrence of `c`, the model of
`str.split(c, 1)` when `c` occurs. -/
def splitOnce (c : Char) : List Char → Option (List Char × List Char)
  | [] => none
  | x :: xs =>
    if x = c then some ([], xs)
    else (splitOnce c xs).map fun p => (x :: p.1, p.2)

/-- Split into (everything up to and including the last `/`, the final
segment); when there is no `/` the first component is empty. -/
def lastSlashSplit (cs : List Char) : List Char × List Char :=
  let seg := (cs.reverse.takeWhile fun c => c ≠ '/').reverse
  (cs.take (cs.length - seg.length), seg)

/-- The model of `_splitparams`: the params are what follows the first
`;` of the final path segment. -/
def splitParams (cs : List Char) : List Char × Option (List Char) :=
  let p := lastSlashSplit cs
  match splitOnce ';' p.2 with
  | some q => (p.1 ++ q.1, some q.2)
  | none => (cs, none)

/-- Re-attach an optional `;params` / `?query` / `#fragment` part; an
empty part is dropped, as `urlunparse`/`urlunsplit` do. -/
def optTail (c : Char) : Option (List Char) → List Char
  | some [] => []
  | some l => c :: l
  | none => []

/-- Re-assembly of a netloc-relative tail (no dot-segment resolution):
split off fragment, then query, then params, and re-join them, dropping
the empty ones. -/
def reassembleTail (rest : List Char) : List Char :=
  let f := match splitOnce '#' rest with
    | some p => (p.1, some p.2)
    | none => (rest, none)
  let q := match splitOnce '?' f.1 with
    | some p => (p.1, some p.2)
    | none => (f.1, none)
  let pp := splitParams q.1
  pp.1 ++ optTail ';' pp.2 ++ optTail '?' q.2 ++ optTail '#' f.2

/-- Dot-segment resolution of an absolute path, the model of the
`segments` loop of `urljoin`: `..` pops, `.` is skipped, a trailing
dot segment leaves a trailing slash, and an empty result becomes `/`. -/
def dotSegments (path : List Char) : List Char :=
  let segments := path.splitOn '/'
  let resolved := segments.foldl
    (fun acc seg =>
      if seg = ['.', '.'] then acc.dropLast
      else if seg = ['.'] then acc
      else acc ++ [seg]) []
  let resolved := match segments.getLast? with
    | some seg => if seg = ['.'] ∨ seg = ['.', '.'] then resolved ++ [[]] else resolved
    | none => resolved
  let joined := List.intercalate ['/'] resolved
  if joined = [] then ['/'] else joined

/-- A path-carrying tail joined onto the base netloc: fragment, query
and params split off, dot segments of the path resolved, a missing
leading `/` restored by `urlunsplit`, and the parts re-joined. -/
def joinPathBranch (rest : List Char) : List Char :=
  let f := match splitOnce '#' rest with
    | some p => (p.1, some p.2)
    | none => (rest, none)
  let q := match splitOnce '?' f.1 with
    | some p => (p.1, some p.2)
    | none => (f.1, none)
  let pp := splitParams q.1
  let p2 := dotSegments pp.1 ++ optTail ';' pp.2
  let p3 := match p2 with
    | [] => p2
    | c :: _ => if c = '/' then p2 else '/' :: p2
  p3 ++ optTail '?' q.2 ++ optTail '#' f.2

/-- Characters that terminate a netloc. -/
def netlocEnd (c : Char) : Bool := c = '/' || c = '?' || c = '#'

/-- The model of `urljoin(BASE_URL, url)` for a target that starts with
`/` (see the section comment above for its scope). -/
def urljoinBase (url : String) : String :=
  let u := stripUnsafe url.toList
  if startsWithList ['/', '/'] u then
    let netloc := (u.drop 2).takeWhile fun c => !netlocEnd c
    let rest := (u.drop 2).dropWhile fun c => !netlocEnd c
    if netloc = [] then
      match rest with
      | [] => BASE_URL
      | '/' :: _ => ⟨BASE_URL.toList ++ joinPathBranch rest⟩
      | _ => ⟨BASE_URL.toList ++ reassembleTail rest⟩
    else ⟨"https:".toList ++ '/' :: '/' :: netloc ++ reassembleTail rest⟩
  else ⟨BASE_URL.toList ++ joinPathBranch u⟩

/-- URL resolution, `url if not url.startswith("/") else urljoin(BASE_URL, url)`. -/
def resolveHref (href : String) : String :=
  if startsWithList "/".toList href.toList then urljoinBase href else href

/-- The year-rollover update of `scrape_events`:
`if prev_month is not None and mm < prev_month: inferred_year += 1`. -/
def updateYear (prev_month : Option Nat) (inferred_year mm : Nat) : Nat :=
  match prev_month with
  | some pm => if mm < pm then inferred_year + 1 else inferred_year
  | none => inferred_year

/-- The loop state of `scrape_events`: accumulated events, the `seen`
dedup set (modelled as a list), and the running date/year context. -/
structure ScrapeState where
  events : List CalendarEvent := []
  seen : List (Date × String × String) := []
  inferred_year : Nat
  prev_month : Option Nat := none
  current_date : Option Date := none

/-- The `for h in h3s` loop of `scrape_events`, one constructor case per
node.  `break` returns the accumulated events; a `ValueError` from the
`date` constructor aborts the whole scrape (`Except.error`). -/
def scrapeLoop (blacklist : List String) (today horizon : Date) :
    List H3 → ScrapeState → Except String (List CalendarEvent)
  | [], st => .ok st.events
  | h :: rest, st =>
    match searchDate h.text.toList with
    | some (dd, mm) =>
      match mkDate (updateYear st.prev_month st.inferred_year mm) mm dd with
      | .error e => .error e
      | .ok d =>
        scrapeLoop blacklist today horizon rest
          { st with inferred_year := updateYear st.prev_month st.inferred_year mm,
                    prev_month := some mm, current_date := some d }
    | none =>
      match h.link with
      | some (href, title) =>
        match st.current_date with
        | some cd =>
          if dateLt cd today then scrapeLoop blacklist today horizon rest st
          else if dateLt horizon cd then .ok st.events
          else if blacklist.any (fun b => containsSub b.toList (casefold title).toList) then
            scrapeLoop blacklist today horizon rest st
          else if (cd, title, resolveHref href) ∈ st.seen then
            scrapeLoop blacklist today horizon rest st
          else
            scrapeLoop blacklist today horizon rest
              { st with
                events := st.events ++ [⟨cd, title, resolveHref href,
                  (_parse_time_range title).2.2, (_parse_time_range title).1,
                  (_parse_time_range title).2.1⟩],
                seen := (cd, title, resolveHref href) :: st.seen }
        | none => scrapeLoop blacklist today horizon rest st
      | none => scrapeLoop blacklist today horizon rest st

/-- The source's `scrape_events`, parameterized by the configuration (`months`, the
`blacklist`, which the constructor casefolds), the reference `today` and
the node sequence obtained from the fetched markup.  A `ValueError`
raised by the horizon computation propagates out of the scrape. -/
def scrape_events (months : Nat) (blacklist : List String) (today : Date)
    (nodes : List H3) : Except String (List CalendarEvent) :=
  match _last_day_of_month today months with
  | .error e => .error e
  | .ok horizon =>
    scrapeLoop (blacklist.map casefold) today horizon nodes
      { inferred_year := today.year }

/-! ## Basic facts about the date order -/

theorem dateLt_iff (a b : Date) :
    dateLt a b = true ↔
      a.year < b.year ∨ (a.year = b.year ∧
        (a.month < b.month ∨ (a.month = b.month ∧ a.day < b.day))) := by
  simp [dateLt]

theorem dateLe_iff (a b : Date) :
    dateLe a b = true ↔
      a.year < b.year ∨ (a.year = b.year ∧
        (a.month < b.month ∨ (a.month = b.month ∧ a.day ≤ b.day))) := by
  simp [dateLe]

/-- The order on dates is total: `¬(a < b)` is `b ≤ a`. -/
theorem dateLt_eq_false_iff (a b : Date) :
    dateLt a b = false ↔ dateLe b a = true := by
  simp only [dateLe_iff]
  rw [← Bool.not_eq_true, dateLt_iff]
  omega

/-! ## Claim C6: the horizon computation -/

theorem predDay_firstOfNext (y m : Nat) (hm : 1 ≤ m) :
    predDay ⟨y, m + 1, 1⟩ = ⟨y, m, daysInMonth y m⟩ := by
  simp only [predDay]
  have h1 : ¬(1 < (1 : Nat)) := by omega
  have h2 : 1 < m + 1 := by omega
  simp [h1, h2]

theorem predDay_newYear (y : Nat) :
    predDay ⟨y + 1, 1, 1⟩ = ⟨y, 12, 31⟩ := by
  simp [predDay]

theorem daysInMonth_december (y : Nat) : daysInMonth y 12 = 31 := by
  simp [daysInMonth]

theorem mkDate_day_one (y m : Nat) (hy1 : 1 ≤ y) (hy2 : y ≤ 9999)
    (hm1 : 1 ≤ m) (hm2 : m ≤ 12) : mkDate y m 1 = .ok ⟨y, m, 1⟩ := by
  have h31 : 1 ≤ daysInMonth y m := by
    unfold daysInMonth
    split
    · split <;> omega
    · split <;> omega
  have hv : isValidDate y m 1 = true := by
    unfold isValidDate
    simp only [Bool.and_eq_true, decide_eq_true_eq]
    omega
  simp [mkDate, hv]

/-- Claim C6 counterexample: at the reference date 9999-12-01 with
`months_ahead = 0` the function raises `ValueError` (the intermediate
`date(10000, 1, 1)` is out of `datetime`'s year range) instead of
returning the last calendar day of that month, 9999-12-31. -/
theorem c6_counterexample :
    _last_day_of_month ⟨9999, 12, 1⟩ 0 = .error "ValueError: invalid date" ∧
      specLastDay ⟨9999, 12, 1⟩ 0 = ⟨9999, 12, 31⟩ :=
  ⟨rfl, rfl⟩

/-- Claim C6 as amended: for every valid reference date `d` and every
`months_ahead ≥ 0` such that the intermediate "first day of the next
month" stays within `datetime`'s year range `1..9999`,
`_last_day_of_month d months_ahead` returns the last calendar day of the
month that is `months_ahead` months after `d`'s month, with ordinary
month-arithmetic year carry; at the `MAXYEAR` boundary it raises
`ValueError` instead.  In particular for `d = 2025-02-01` and
`months_ahead = 2` it returns `2025-04-30`. -/
theorem c6_last_day_of_month :
    (∀ (d : Date) (n : Nat), 1 ≤ d.year → 1 ≤ d.month → d.month ≤ 12 →
      (if (d.month - 1 + n) % 12 + 1 = 12
        then d.year + (d.month - 1 + n) / 12 + 1
        else d.year + (d.month - 1 + n) / 12) ≤ 9999 →
      _last_day_of_month d n = .ok (specLastDay d n)) ∧
    _last_day_of_month ⟨2025, 2, 1⟩ 2 = .ok ⟨2025, 4, 30⟩ := by
  constructor
  · intro d n hy h1 h2 hbound
    have hm : d.month + n - 1 = d.month - 1 + n := by omega
    unfold _last_day_of_month specLastDay
    simp only [hm]
    by_cases h12 : (d.month - 1 + n) % 12 + 1 = 12
    · rw [if_pos h12] at hbound
      rw [if_pos h12,
        mkDate_day_one _ _ (by omega) (by omega) (by omega) (by omega)]
      simp only [Except.map]
      rw [predDay_newYear, h12, daysInMonth_december]
    · rw [if_neg h12] at hbound
      have hub : (d.month - 1 + n) % 12 + 1 ≤ 11 := by
        have := Nat.mod_lt (d.month - 1 + n) (y := 12) (by omega)
        omega
      rw [if_neg h12,
        mkDate_day_one _ _ (by omega) (by omega) (by omega) (by omega)]
      simp only [Except.map]
      rw [predDay_firstOfNext _ _ (by omega)]
  · rfl

theorem c6_last_day_of_month_witness :
    _last_day_of_month ⟨2025, 2, 1⟩ 2 = .ok (specLastDay ⟨2025, 2, 1⟩ 2) :=
  c6_last_day_of_month.1 ⟨2025, 2, 1⟩ 2 (by decide) (by decide) (by decide)
    (by decide)

/-! ## Claim C10: no 24-hour validation of extracted times -/

/-- Claim C10: `_parse_time_range` does not validate that extracted
times lie within the 24-hour clock: on the title `"Från 99.99"` it
returns `start_time = "99:99"`, `end_time = none`, `all_day = false`. -/
theorem c10_no_clock_validation :
    _parse_time_range "Från 99.99" = (some "99:99", none, false) := by
  rfl

/-! ## Claim C3: the shape of extracted time strings -/

/-- Shape `HH:MM`: exactly two digits, a colon, two digits (the shape the spec
asserts for `startTime`/`endTime`). -/
def isHHMM (s : String) : Bool :=
  match s.toList with
  | [h1, h2, ':', m1, m2] =>
    isDigitChar h1 && isDigitChar h2 && isDigitChar m1 && isDigitChar m2
  | _ => false

/-- Shape `H:MM` or `HH:MM`: a one- or two-digit hour, a colon, two digits
(the shape the code actually guarantees). -/
def isHMM (s : String) : Bool :=
  match s.toList with
  | [h1, ':', m1, m2] => isDigitChar h1 && isDigitChar m1 && isDigitChar m2
  | [h1, h2, ':', m1, m2] =>
    isDigitChar h1 && isDigitChar h2 && isDigitChar m1 && isDigitChar m2
  | _ => false

/-- The shape of a group captured by `(\d{1,2}[.:]\d{2})`. -/
def isTimeGroup (g : List Char) : Bool :=
  match g with
  | [a, b, c, d, e] =>
    isDigitChar a && isDigitChar b && isSepChar c && isDigitChar d && isDigitChar e
  | [a, b, c, d] => isDigitChar a && isSepChar b && isDigitChar c && isDigitChar d
  | _ => false

/-- The shape of a group captured by `(\d{1,2})`. -/
def isHourGroup (g : List Char) : Bool :=
  match g with
  | [a] => isDigitChar a
  | [a, b] => isDigitChar a && isDigitChar b
  | _ => false

theorem searchPos_some {α : Type} {f : List Char → Option α} :
    ∀ {cs : List Char} {r : α}, searchPos f cs = some r →
      ∃ suffix, f suffix = some r := by
  intro cs
  induction cs with
  | nil => intro r h; simp [searchPos] at h
  | cons c cs ih =>
    intro r h
    unfold searchPos at h
    split at h
    · exact ⟨c :: cs, by simp_all⟩
    · exact ih h

theorem timeTokAt_shape :
    ∀ {cs g rest}, timeTokAt cs = some (g, rest) → isTimeGroup g = true := by
  intro cs g rest h
  unfold timeTokAt at h
  split at h
  · split at h
    · simp only [Option.some.injEq, Prod.mk.injEq] at h
      obtain ⟨rfl, -⟩ := h
      simp_all [isTimeGroup]
    · split at h
      · simp only [Option.some.injEq, Prod.mk.injEq] at h
        obtain ⟨rfl, -⟩ := h
        simp_all [isTimeGroup]
      · exact absurd h (by simp)
  · split at h
    · simp only [Option.some.injEq, Prod.mk.injEq] at h
      obtain ⟨rfl, -⟩ := h
      simp_all [isTimeGroup]
    · exact absurd h (by simp)
  · exact absurd h (by simp)

theorem fullRangeAt_shape {cs g1 g2} (h : fullRangeAt cs = some (g1, g2)) :
    isTimeGroup g1 = true ∧ isTimeGroup g2 = true := by
  unfold fullRangeAt at h
  split at h
  · next heq1 =>
    split at h
    · split at h
      · split at h
        · simp only [Option.some.injEq, Prod.mk.injEq] at h
          obtain ⟨rfl, rfl⟩ := h
          next heq2 => exact ⟨timeTokAt_shape heq1, timeTokAt_shape heq2⟩
        · exact absurd h (by simp)
      · exact absurd h (by simp)
    · exact absurd h (by simp)
  · exact absurd h (by simp)

theorem hourTok2At_shape :
    ∀ {cs g}, hourTok2At cs = some g → isHourGroup g = true := by
  intro cs g h
  unfold hourTok2At at h
  split at h
  · split at h
    · split at h
      · simp only [Option.some.injEq] at h
        subst h
        simp_all [isHourGroup]
      · exact absurd h (by simp)
    · split at h
      · simp only [Option.some.injEq] at h
        subst h
        simp_all [isHourGroup]
      · exact absurd h (by simp)
  · split at h
    · simp only [Option.some.injEq] at h
      subst h
      simp_all [isHourGroup]
    · exact absurd h (by simp)
  · exact absurd h (by simp)

theorem hintHourAt_shape :
    ∀ {cs g}, hintHourAt cs = some g → isHourGroup g = true := by
  intro cs g h
  unfold hintHourAt at h
  split at h
  · split at h
    · split at h
      · simp only [Option.some.injEq] at h
        subst h
        simp_all [isHourGroup]
      · exact absurd h (by simp)
    · split at h
      · simp only [Option.some.injEq] at h
        subst h
        simp_all [isHourGroup]
      · exact absurd h (by simp)
  · exact absurd h (by simp)

theorem hourDashTail_shape {g rest g1 g2}
    (hg : isHourGroup g = true) (h : hourDashTail g rest = some (g1, g2)) :
    isHourGroup g1 = true ∧ isHourGroup g2 = true := by
  unfold hourDashTail at h
  split at h
  · split at h
    · split at h
      · next heq =>
        simp only [Option.some.injEq, Prod.mk.injEq] at h
        obtain ⟨rfl, rfl⟩ := h
        exact ⟨hg, hourTok2At_shape heq⟩
      · exact absurd h (by simp)
    · exact absurd h (by simp)
  · exact absurd h (by simp)

theorem shortRangeDigits_shape :
    ∀ {cs g1 g2}, shortRangeDigits cs = some (g1, g2) →
      isHourGroup g1 = true ∧ isHourGroup g2 = true := by
  intro cs g1 g2 h
  unfold shortRangeDigits at h
  split at h
  · split at h
    · next ha =>
      simp only [Bool.and_eq_true] at ha
      exact hourDashTail_shape (by simp [isHourGroup, ha.1, ha.2]) h
    · split at h
      · next _ ha =>
        exact hourDashTail_shape (by simp [isHourGroup, ha]) h
      · exact absurd h (by simp)
  · split at h
    · next ha => exact hourDashTail_shape (by simp [isHourGroup, ha]) h
    · exact absurd h (by simp)
  · exact absurd h (by simp)

theorem shortRangeAt_shape :
    ∀ {cs g1 g2}, shortRangeAt cs = some (g1, g2) →
      isHourGroup g1 = true ∧ isHourGroup g2 = true := by
  intro cs g1 g2 h
  unfold shortRangeAt at h
  split at h
  · split at h
    · split at h
      · exact shortRangeDigits_shape h
      · exact shortRangeDigits_shape h
    · exact absurd h (by simp)
  · exact absurd h (by simp)

theorem hintAt_shape {cs g1 g2} (h : hintAt cs = some (g1, g2)) :
    isTimeGroup g1 = true ∧ isHourGroup g2 = true := by
  unfold hintAt at h
  split at h
  · next heq1 =>
    split at h
    · split at h
      · next heq2 =>
        simp only [Option.some.injEq, Prod.mk.injEq] at h
        obtain ⟨rfl, rfl⟩ := h
        exact ⟨timeTokAt_shape heq1, hintHourAt_shape heq2⟩
      · exact absurd h (by simp)
    · exact absurd h (by simp)
  · exact absurd h (by simp)

theorem singleTimeAt_shape {cs g} (h : singleTimeAt cs = some g) :
    isTimeGroup g = true := by
  unfold singleTimeAt at h
  cases heq : timeTokAt cs with
  | none => rw [heq] at h; simp at h
  | some r =>
    obtain ⟨gr, rest⟩ := r
    rw [heq] at h
    simp at h
    subst h
    exact timeTokAt_shape heq

/-- A digit is left unchanged by the `"." → ":"` replacement. -/
theorem replace_digit {a : Char} (h : isDigitChar a = true) :
    (if a = '.' then ':' else a) = a := by
  split
  · next heq => subst heq; exact absurd h (by decide)
  · rfl

/-- A `[.:]` separator becomes `:` under the `"." → ":"` replacement. -/
theorem replace_sep {c : Char} (h : isSepChar c = true) :
    (if c = '.' then ':' else c) = ':' := by
  have : c = '.' ∨ c = ':' := by
    simpa [isSepChar, Bool.or_eq_true, decide_eq_true_eq] using h
  rcases this with rfl | rfl <;> rfl

theorem normalize_shape {g : List Char} (h : isTimeGroup g = true) :
    isHMM (_normalize_time ⟨g⟩) = true := by
  match g, h with
  | [a, b, c, d, e], h =>
    simp only [isTimeGroup, Bool.and_eq_true] at h
    obtain ⟨⟨⟨⟨ha, hb⟩, hc⟩, hd⟩, he⟩ := h
    show isHMM ⟨[a, b, c, d, e].map _⟩ = true
    simp only [List.map]
    rw [replace_digit ha, replace_digit hb, replace_sep hc, replace_digit hd,
      replace_digit he]
    simp [isHMM, ha, hb, hd, he]
  | [a, b, c, d], h =>
    simp only [isTimeGroup, Bool.and_eq_true] at h
    obtain ⟨⟨⟨ha, hb⟩, hc⟩, hd⟩ := h
    show isHMM ⟨[a, b, c, d].map _⟩ = true
    simp only [List.map]
    rw [replace_digit ha, replace_sep hb, replace_digit hc, replace_digit hd]
    simp [isHMM, ha, hc, hd]

theorem digit_toNat_lt {a : Char} (h : isDigitChar a = true) :
    a.toNat - 48 < 10 := by
  simp only [isDigitChar, Bool.and_eq_true, decide_eq_true_eq] at h
  omega

theorem isHourGroup_lt {g : List Char} (h : isHourGroup g = true) :
    digitsToNat g < 100 := by
  match g, h with
  | [a], h =>
    have := digit_toNat_lt h
    simp only [digitsToNat, List.foldl]
    omega
  | [a, b], h =>
    simp only [isHourGroup, Bool.and_eq_true] at h
    have h1 := digit_toNat_lt h.1
    have h2 := digit_toNat_lt h.2
    simp only [digitsToNat, List.foldl]
    omega

theorem fmt02_shape : ∀ n, n < 100 → isHMM (fmt02 n ++ ":00") = true := by
  decide

/-- Claim C3 counterexample: on the title `"Från 9.00"` (a one-digit
source hour), `_parse_time_range` returns `start_time = "9:00"`, which is
not a zero-padded `HH:MM` string. -/
theorem c3_counterexample :
    _parse_time_range "Från 9.00" = (some "9:00", none, false) ∧
      isHHMM "9:00" = false := by
  exact ⟨rfl, rfl⟩

/-- Claim C3 as amended: every `start_time` or `end_time` produced by
`_parse_time_range` is a one- or two-digit 24-hour-style hour, a colon,
and two digits (`H:MM` or `HH:MM`): a `.` separator is normalized to `:`,
but a one-digit source hour such as `"9.00"` is *not* zero-padded (only
the short-hour-range rule and the `NN+` hint's end hour are). -/
theorem c3_amended :
    ∀ (text : String) (s e : Option String) (ad : Bool),
      _parse_time_range text = (s, e, ad) →
      (∀ t, s = some t → isHMM t = true) ∧ (∀ t, e = some t → isHMM t = true) := by
  intro text s e ad h
  unfold _parse_time_range at h
  cases h1 : searchPos fullRangeAt text.toList with
  | some r =>
    obtain ⟨g1, g2⟩ := r
    simp only [h1] at h
    simp only [Prod.mk.injEq] at h
    obtain ⟨hs, he, -⟩ := h
    obtain ⟨suf, hsuf⟩ := searchPos_some h1
    obtain ⟨hg1, hg2⟩ := fullRangeAt_shape hsuf
    subst hs he
    exact ⟨fun t ht => by cases ht; exact normalize_shape hg1,
      fun t ht => by cases ht; exact normalize_shape hg2⟩
  | none =>
    simp only [h1] at h
    cases h2 : searchPos shortRangeAt text.toList with
    | some r =>
      obtain ⟨g1, g2⟩ := r
      simp only [h2] at h
      simp only [Prod.mk.injEq] at h
      obtain ⟨hs, he, -⟩ := h
      obtain ⟨suf, hsuf⟩ := searchPos_some h2
      obtain ⟨hg1, hg2⟩ := shortRangeAt_shape hsuf
      subst hs he
      exact ⟨fun t ht => by cases ht; exact fmt02_shape _ (isHourGroup_lt hg1),
        fun t ht => by cases ht; exact fmt02_shape _ (isHourGroup_lt hg2)⟩
    | none =>
      simp only [h2] at h
      cases h3 : searchPos hintAt text.toList with
      | some r =>
        obtain ⟨g1, g2⟩ := r
        simp only [h3] at h
        simp only [Prod.mk.injEq] at h
        obtain ⟨hs, he, -⟩ := h
        obtain ⟨suf, hsuf⟩ := searchPos_some h3
        obtain ⟨hg1, hg2⟩ := hintAt_shape hsuf
        subst hs he
        exact ⟨fun t ht => by cases ht; exact normalize_shape hg1,
          fun t ht => by cases ht; exact fmt02_shape _ (isHourGroup_lt hg2)⟩
      | none =>
        simp only [h3] at h
        cases h4 : searchPos singleTimeAt text.toList with
        | some g1 =>
          simp only [h4] at h
          simp only [Prod.mk.injEq] at h
          obtain ⟨hs, he, -⟩ := h
          obtain ⟨suf, hsuf⟩ := searchPos_some h4
          have hg1 := singleTimeAt_shape hsuf
          subst hs he
          exact ⟨fun t ht => by cases ht; exact normalize_shape hg1,
            fun t ht => by cases ht⟩
        | none =>
          simp only [h4] at h
          simp only [Prod.mk.injEq] at h
          obtain ⟨hs, he, -⟩ := h
          subst hs he
          refine ⟨fun t ht => ?_, fun t ht => ?_⟩ <;> cases ht

theorem c3_amended_witness : isHMM "9:00" = true :=
  (c3_amended "Från 9.00" (some "9:00") none false (by rfl)).1 "9:00" rfl

/-! ## Claim C4: strict priority order of the time-pattern rules -/

/-- Claim C4: the four time-pattern rules are applied in strict priority
order with first match winning: whenever the full-range pattern matches
anywhere in the title, its result is returned regardless of the
lower-priority patterns; in particular `"Kl.19.00-23.00, 25+"` — where
the `NN+`-hint pattern also matches — yields the full-range result. -/
theorem c4_priority :
    (∀ (text : String) (g1 g2 : List Char),
      searchPos fullRangeAt text.toList = some (g1, g2) →
      _parse_time_range text =
        (some (_normalize_time ⟨g1⟩), some (_normalize_time ⟨g2⟩), false)) ∧
    (_parse_time_range "Kl.19.00-23.00, 25+" = (some "19:00", some "23:00", false) ∧
      (searchPos hintAt "Kl.19.00-23.00, 25+".toList).isSome = true) := by
  refine ⟨?_, rfl, rfl⟩
  intro text g1 g2 h
  unfold _parse_time_range
  simp only [h]

theorem c4_priority_witness :
    _parse_time_range "Kl.19.00-23.00, 25+" =
      (some (_normalize_time ⟨"19.00".toList⟩), some (_normalize_time ⟨"23.00".toList⟩),
        false) :=
  c4_priority.1 "Kl.19.00-23.00, 25+" "19.00".toList "23.00".toList (by rfl)

/-! ## Claim C1: `all_day` ⇔ no times -/

theorem parse_time_range_all_day (text : String) :
    ∀ s e ad, _parse_time_range text = (s, e, ad) →
      (ad = true ↔ s = none ∧ e = none) ∧ (ad = false → s ≠ none) := by
  intro s e ad h
  unfold _parse_time_range at h
  cases h1 : searchPos fullRangeAt text.toList with
  | some r =>
    obtain ⟨g1, g2⟩ := r
    simp only [h1, Prod.mk.injEq] at h
    obtain ⟨hs, he, had⟩ := h
    subst hs he had
    simp
  | none =>
    simp only [h1] at h
    cases h2 : searchPos shortRangeAt text.toList with
    | some r =>
      obtain ⟨g1, g2⟩ := r
      simp only [h2, Prod.mk.injEq] at h
      obtain ⟨hs, he, had⟩ := h
      subst hs he had
      simp
    | none =>
      simp only [h2] at h
      cases h3 : searchPos hintAt text.toList with
      | some r =>
        obtain ⟨g1, g2⟩ := r
        simp only [h3, Prod.mk.injEq] at h
        obtain ⟨hs, he, had⟩ := h
        subst hs he had
        simp
      | none =>
        simp only [h3] at h
        cases h4 : searchPos singleTimeAt text.toList with
        | some g1 =>
          simp only [h4, Prod.mk.injEq] at h
          obtain ⟨hs, he, had⟩ := h
          subst hs he had
          simp
        | none =>
          simp only [h4, Prod.mk.injEq] at h
          obtain ⟨hs, he, had⟩ := h
          subst hs he had
          simp

/-! ## The soundness invariant of the scrape loop -/

/-- Every event in a successful scrape either was in the state already or
is in the date window, carries `_parse_time_range`'s verdict on its own
title, and stems from some node's link with the leading-slash URL
resolution applied. -/
theorem scrapeLoop_sound (bl : List String) (t hz : Date) (nodes : List H3)
    (st : ScrapeState) :
    ∀ evs, scrapeLoop bl t hz nodes st = .ok evs →
      ∀ ev ∈ evs, ev ∈ st.events ∨
        (dateLt ev.date t = false ∧ dateLt hz ev.date = false ∧
          ev.all_day = (_parse_time_range ev.title).2.2 ∧
          ev.start_time = (_parse_time_range ev.title).1 ∧
          ev.end_time = (_parse_time_range ev.title).2.1 ∧
          ∃ nd ∈ nodes, ∃ href, nd.link = some (href, ev.title) ∧
            ev.url = resolveHref href) := by
  induction nodes, st using scrapeLoop.induct bl t hz with
  | case1 st =>
    intro evs h ev hev
    simp only [scrapeLoop] at h
    injection h with h
    subst h
    exact Or.inl hev
  | case2 nd rest st dd mm hsd e hmk =>
    intro evs h ev hev
    simp only [scrapeLoop, hsd, hmk] at h
    exact absurd h (by simp)
  | case3 nd rest st dd mm hsd d hmk ih =>
    intro evs h ev hev
    simp only [scrapeLoop, hsd, hmk] at h
    rcases ih evs h ev hev with hin | ⟨w1, w2, w3, w4, w5, nd', hnd', hrest⟩
    · exact Or.inl hin
    · exact Or.inr ⟨w1, w2, w3, w4, w5, nd', List.mem_cons_of_mem _ hnd', hrest⟩
  | case4 nd rest st hsd href title hlink cd hcd hlt ih =>
    intro evs h ev hev
    simp only [scrapeLoop, hsd, hlink, hcd, hlt, if_true] at h
    rcases ih evs h ev hev with hin | ⟨w1, w2, w3, w4, w5, nd', hnd', hrest⟩
    · exact Or.inl hin
    · exact Or.inr ⟨w1, w2, w3, w4, w5, nd', List.mem_cons_of_mem _ hnd', hrest⟩
  | case5 nd rest st hsd href title hlink cd hcd hlt1 hlt2 =>
    intro evs h ev hev
    simp only [scrapeLoop, hsd, hlink, hcd, hlt1, hlt2] at h
    injection h with h
    subst h
    exact Or.inl hev
  | case6 nd rest st hsd href title hlink cd hcd hlt1 hlt2 hbl ih =>
    intro evs h ev hev
    simp only [scrapeLoop, hsd, hlink, hcd, hlt1, hlt2, hbl] at h
    rcases ih evs h ev hev with hin | ⟨w1, w2, w3, w4, w5, nd', hnd', hrest⟩
    · exact Or.inl hin
    · exact Or.inr ⟨w1, w2, w3, w4, w5, nd', List.mem_cons_of_mem _ hnd', hrest⟩
  | case7 nd rest st hsd href title hlink cd hcd hlt1 hlt2 hbl hseen ih =>
    intro evs h ev hev
    simp only [scrapeLoop, hsd, hlink, hcd, hlt1, hlt2, hbl, hseen] at h
    rcases ih evs h ev hev with hin | ⟨w1, w2, w3, w4, w5, nd', hnd', hrest⟩
    · exact Or.inl hin
    · exact Or.inr ⟨w1, w2, w3, w4, w5, nd', List.mem_cons_of_mem _ hnd', hrest⟩
  | case8 nd rest st hsd href title hlink cd hcd hlt1 hlt2 hbl hseen ih =>
    intro evs h ev hev
    simp only [scrapeLoop, hsd, hlink, hcd, hlt1, hlt2, hbl, hseen, if_false,
      Bool.false_eq_true, if_neg, ite_false] at h
    rw [hcd] at ih
    rcases ih evs h ev hev with hin | ⟨w1, w2, w3, w4, w5, nd', hnd', hrest⟩
    · rcases List.mem_append.1 hin with h1 | h2
      · exact Or.inl h1
      · have hev' : ev = ⟨cd, title, resolveHref href,
            (_parse_time_range title).2.2, (_parse_time_range title).1,
            (_parse_time_range title).2.1⟩ := by simpa using h2
        subst hev'
        refine Or.inr ⟨?_, ?_, rfl, rfl, rfl,
          nd, List.mem_cons_self _ _, href, hlink, rfl⟩
        · exact Bool.not_eq_true _ ▸ (by simpa using hlt1)
        · exact Bool.not_eq_true _ ▸ (by simpa using hlt2)
    · exact Or.inr ⟨w1, w2, w3, w4, w5, nd', List.mem_cons_of_mem _ hnd', hrest⟩
  | case9 nd rest st hsd href title hlink hcd ih =>
    intro evs h ev hev
    simp only [scrapeLoop, hsd, hlink, hcd] at h
    rcases ih evs h ev hev with hin | ⟨w1, w2, w3, w4, w5, nd', hnd', hrest⟩
    · exact Or.inl hin
    · exact Or.inr ⟨w1, w2, w3, w4, w5, nd', List.mem_cons_of_mem _ hnd', hrest⟩
  | case10 nd rest st hsd hlink ih =>
    intro evs h ev hev
    simp only [scrapeLoop, hsd, hlink] at h
    rcases ih evs h ev hev with hin | ⟨w1, w2, w3, w4, w5, nd', hnd', hrest⟩
    · exact Or.inl hin
    · exact Or.inr ⟨w1, w2, w3, w4, w5, nd', List.mem_cons_of_mem _ hnd', hrest⟩

/-! ## Concrete node sequences (modelled on the test fixtures) -/

/-- A date heading followed by one timed event. -/
def sampleNodes : List H3 :=
  [⟨"onsdag 05/02", none⟩,
   ⟨"AW Med Quiz! Från Kl.17.00",
     some ("/jonkoping/event/aw-quiz/", "AW Med Quiz! Från Kl.17.00")⟩]

/-- The event scraped from `sampleNodes`. -/
def sampleEvent : CalendarEvent :=
  ⟨⟨2025, 2, 5⟩, "AW Med Quiz! Från Kl.17.00",
    "https://krogoco.se/jonkoping/event/aw-quiz/", false, some "17:00", none⟩

/-- Two nodes producing the identical `(date, title, url)` triple,
followed by a distinct event. -/
def dupNodes : List H3 :=
  [⟨"fredag 28/02", none⟩,
   ⟨"Räkfrossa", some ("/jonkoping/event/rakfrossa/", "Räkfrossa")⟩,
   ⟨"Räkfrossa", some ("/jonkoping/event/rakfrossa/", "Räkfrossa")⟩,
   ⟨"torsdag 06/03", none⟩,
   ⟨"AW Med Quiz! Från Kl.17.00",
     some ("/jonkoping/event/aw-quiz/", "AW Med Quiz! Från Kl.17.00")⟩]

/-- A December-to-February sequence crossing the year boundary, with
date-line month values `[12, 12, 1, 1, 2]`. -/
def rolloverNodes : List H3 :=
  [⟨"lördag 06/12", none⟩,
   ⟨"Julbord", some ("/jonkoping/event/julbord/", "Julbord")⟩,
   ⟨"lördag 13/12", none⟩,
   ⟨"Julfest", some ("/jonkoping/event/julfest/", "Julfest")⟩,
   ⟨"fredag 03/01", none⟩,
   ⟨"Nyårsquiz", some ("/jonkoping/event/nyarsquiz/", "Nyårsquiz")⟩,
   ⟨"lördag 10/01", none⟩,
   ⟨"Vinterfest", some ("/jonkoping/event/vinterfest/", "Vinterfest")⟩,
   ⟨"lördag 14/02", none⟩,
   ⟨"Alla Hjärtans Dag", some ("/jonkoping/event/ahd/", "Alla Hjärtans Dag")⟩]

/-- A date heading followed by an event whose link target is relative but
does not begin with `/`. -/
def relNodes : List H3 :=
  [⟨"onsdag 05/02", none⟩,
   ⟨"Fest", some ("kalender/fest", "Fest")⟩]

/-- A heading matching the `DD/MM` pattern whose digits form the
impossible date 32/01, followed by an ordinary event. -/
def badNodes : List H3 :=
  [⟨"lördag 32/01", none⟩,
   ⟨"Fest", some ("/jonkoping/event/fest/", "Fest")⟩]

/-! ## Claim C1 -/

/-- Claim C1: for every event returned by `scrape_events`, `all_day` is
true exactly when both `start_time` and `end_time` are `none`, and when
`all_day` is false the `start_time` is present. -/
theorem c1_all_day_iff :
    ∀ (months : Nat) (bl : List String) (today : Date) (nodes : List H3)
      (evs : List CalendarEvent),
      scrape_events months bl today nodes = .ok evs →
      ∀ ev ∈ evs,
        (ev.all_day = true ↔ ev.start_time = none ∧ ev.end_time = none) ∧
          (ev.all_day = false → ev.start_time ≠ none) := by
  intro months bl today nodes evs h ev hev
  unfold scrape_events at h
  cases hh : _last_day_of_month today months with
  | error e => simp only [hh] at h; exact absurd h (by simp)
  | ok horizon =>
  simp only [hh] at h
  rcases scrapeLoop_sound _ _ _ _ _ _ h ev hev with hin | ⟨-, -, h3, h4, h5, -⟩
  · exact absurd hin (by simp)
  · obtain ⟨hiff, himp⟩ := parse_time_range_all_day ev.title
      (_parse_time_range ev.title).1 (_parse_time_range ev.title).2.1
      (_parse_time_range ev.title).2.2 rfl
    rw [h3, h4, h5]
    exact ⟨hiff, himp⟩

theorem c1_all_day_iff_witness :
    (sampleEvent.all_day = true ↔
      sampleEvent.start_time = none ∧ sampleEvent.end_time = none) ∧
      (sampleEvent.all_day = false → sampleEvent.start_time ≠ none) :=
  c1_all_day_iff 2 [] ⟨2025, 2, 1⟩ sampleNodes [sampleEvent] (by rfl)
    sampleEvent (by simp)

/-! ## Claim C2 -/

/-- Claim C2: every event returned by `scrape_events` has its date
between the reference `today` and the computed horizon
`_last_day_of_month today months`, inclusive. -/
theorem c2_window :
    ∀ (months : Nat) (bl : List String) (today : Date) (nodes : List H3)
      (evs : List CalendarEvent),
      scrape_events months bl today nodes = .ok evs →
      ∀ ev ∈ evs, ∃ horizon,
        _last_day_of_month today months = .ok horizon ∧
          dateLe today ev.date = true ∧ dateLe ev.date horizon = true := by
  intro months bl today nodes evs h ev hev
  unfold scrape_events at h
  cases hh : _last_day_of_month today months with
  | error e => simp only [hh] at h; exact absurd h (by simp)
  | ok horizon =>
  simp only [hh] at h
  rcases scrapeLoop_sound _ _ _ _ _ _ h ev hev with hin | ⟨w1, w2, -⟩
  · exact absurd hin (by simp)
  · exact ⟨horizon, rfl,
      (dateLt_eq_false_iff _ _).mp w1, (dateLt_eq_false_iff _ _).mp w2⟩

theorem c2_window_witness :
    ∃ horizon, _last_day_of_month ⟨2025, 2, 1⟩ 2 = .ok horizon ∧
      dateLe ⟨2025, 2, 1⟩ sampleEvent.date = true ∧
        dateLe sampleEvent.date horizon = true :=
  c2_window 2 [] ⟨2025, 2, 1⟩ sampleNodes [sampleEvent] (by rfl)
    sampleEvent (by simp)

/-! ## Claim C9 -/

/-- Claim C9 counterexample: a relative link target that does not begin
with `/` is kept verbatim, not resolved against the base origin: the
node with href `"kalender/fest"` yields an event whose `url` is
`"kalender/fest"`, which does not start with `https://krogoco.se`. -/
theorem c9_counterexample :
    scrape_events 2 [] ⟨2025, 2, 1⟩ relNodes =
      .ok [⟨⟨2025, 2, 5⟩, "Fest", "kalender/fest", true, none, none⟩] ∧
      ("kalender/fest" : String) ≠ BASE_URL ++ "/kalender/fest" ∧
      startsWithList BASE_URL.toList "kalender/fest".toList = false := by
  exact ⟨rfl, by decide, rfl⟩

/-- Claim C9 as amended: every emitted event's `url` comes from some
node's link target, resolved by the leading-slash rule: targets
beginning with `/` are resolved with `urljoin` against the fixed base
origin `https://krogoco.se` (so a network-path target `//host/x` takes
the scheme with the new authority, and dot segments are normalized),
while all other targets — absolute URLs, but also relative forms not
beginning with `/` — are kept verbatim. -/
theorem c9_amended :
    (∀ (months : Nat) (bl : List String) (today : Date) (nodes : List H3)
      (evs : List CalendarEvent),
      scrape_events months bl today nodes = .ok evs →
      ∀ ev ∈ evs, ∃ nd ∈ nodes, ∃ href,
        nd.link = some (href, ev.title) ∧
          ev.url = (if startsWithList "/".toList href.toList
            then urljoinBase href else href)) ∧
    urljoinBase "//evil.com/x" = "https://evil.com/x" ∧
    urljoinBase "/./x" = "https://krogoco.se/x" ∧
    urljoinBase "/x/../y" = "https://krogoco.se/y" ∧
    urljoinBase "/jonkoping/event/studentfest/" =
      "https://krogoco.se/jonkoping/event/studentfest/" := by
  refine ⟨?_, rfl, rfl, rfl, rfl⟩
  intro months bl today nodes evs h ev hev
  unfold scrape_events at h
  cases hh : _last_day_of_month today months with
  | error e => simp only [hh] at h; exact absurd h (by simp)
  | ok horizon =>
  simp only [hh] at h
  rcases scrapeLoop_sound _ _ _ _ _ _ h ev hev with hin | ⟨-, -, -, -, -, hnode⟩
  · exact absurd hin (by simp)
  · obtain ⟨nd, hnd, href, hl, hu⟩ := hnode
    exact ⟨nd, hnd, href, hl, by rw [hu]; rfl⟩

theorem c9_amended_witness :
    ∃ nd ∈ relNodes, ∃ href,
      nd.link = some (href, "Fest") ∧
        "kalender/fest" = (if startsWithList "/".toList href.toList
          then urljoinBase href else href) :=
  c9_amended.1 2 [] ⟨2025, 2, 1⟩ relNodes
    [⟨⟨2025, 2, 5⟩, "Fest", "kalender/fest", true, none, none⟩] (by rfl)
    ⟨⟨2025, 2, 5⟩, "Fest", "kalender/fest", true, none, none⟩ (by simp)

/-! ## Claim C7 -/

/-- The dedup invariant: if every accumulated event's key is recorded in
`seen` and the accumulated keys are distinct, the final keys are
distinct. -/
theorem scrapeLoop_nodup (bl : List String) (t hz : Date) (nodes : List H3)
    (st : ScrapeState) :
    ∀ evs,
      (∀ ev ∈ st.events, (ev.date, ev.title, ev.url) ∈ st.seen) →
      (st.events.map fun ev => (ev.date, ev.title, ev.url)).Nodup →
      scrapeLoop bl t hz nodes st = .ok evs →
      (evs.map fun ev => (ev.date, ev.title, ev.url)).Nodup := by
  induction nodes, st using scrapeLoop.induct bl t hz with
  | case1 st =>
    intro evs hsub hnd h
    simp only [scrapeLoop] at h
    injection h with h
    subst h
    exact hnd
  | case2 nd rest st dd mm hsd e hmk =>
    intro evs hsub hnd h
    simp only [scrapeLoop, hsd, hmk] at h
    exact absurd h (by simp)
  | case3 nd rest st dd mm hsd d hmk ih =>
    intro evs hsub hnd h
    simp only [scrapeLoop, hsd, hmk] at h
    exact ih evs hsub hnd h
  | case4 nd rest st hsd href title hlink cd hcd hlt ih =>
    intro evs hsub hnd h
    simp only [scrapeLoop, hsd, hlink, hcd, hlt, if_true] at h
    exact ih evs hsub hnd h
  | case5 nd rest st hsd href title hlink cd hcd hlt1 hlt2 =>
    intro evs hsub hnd h
    simp only [scrapeLoop, hsd, hlink, hcd, hlt1, hlt2] at h
    injection h with h
    subst h
    exact hnd
  | case6 nd rest st hsd href title hlink cd hcd hlt1 hlt2 hbl ih =>
    intro evs hsub hnd h
    simp only [scrapeLoop, hsd, hlink, hcd, hlt1, hlt2, hbl] at h
    exact ih evs hsub hnd h
  | case7 nd rest st hsd href title hlink cd hcd hlt1 hlt2 hbl hseen ih =>
    intro evs hsub hnd h
    simp only [scrapeLoop, hsd, hlink, hcd, hlt1, hlt2, hbl, hseen] at h
    exact ih evs hsub hnd h
  | case8 nd rest st hsd href title hlink cd hcd hlt1 hlt2 hbl hseen ih =>
    intro evs hsub hnd h
    simp only [scrapeLoop, hsd, hlink, hcd, hlt1, hlt2, hbl, hseen, if_false,
      Bool.false_eq_true, if_neg, ite_false] at h
    rw [hcd] at ih
    refine ih evs ?_ ?_ h
    · intro ev hev
      rcases List.mem_append.1 hev with h1 | h2
      · exact List.mem_cons_of_mem _ (hsub ev h1)
      · have hev' : ev = ⟨cd, title, resolveHref href,
            (_parse_time_range title).2.2, (_parse_time_range title).1,
            (_parse_time_range title).2.1⟩ := by simpa using h2
        subst hev'
        exact List.mem_cons_self _ _
    · rw [List.map_append]
      rw [List.nodup_append]
      refine ⟨hnd, List.nodup_singleton _, ?_⟩
      intro k hk hk2
      have hk' : k = (cd, title, resolveHref href) := by simpa using hk2
      subst hk'
      obtain ⟨ev, hev, hkey⟩ := List.mem_map.1 hk
      exact hseen (hkey ▸ hsub ev hev)
  | case9 nd rest st hsd href title hlink hcd ih =>
    intro evs hsub hnd h
    simp only [scrapeLoop, hsd, hlink, hcd] at h
    exact ih evs hsub hnd h
  | case10 nd rest st hsd hlink ih =>
    intro evs hsub hnd h
    simp only [scrapeLoop, hsd, hlink] at h
    exact ih evs hsub hnd h

/-- Claim C7: no two events returned by `scrape_events` share the
identical `(date, title, url)` triple; in particular the two `dupNodes`
headings with identical date, title and resolved URL collapse to exactly
one output event. -/
theorem c7_dedup :
    (∀ (months : Nat) (bl : List String) (today : Date) (nodes : List H3)
      (evs : List CalendarEvent),
      scrape_events months bl today nodes = .ok evs →
      (evs.map fun ev => (ev.date, ev.title, ev.url)).Nodup) ∧
    scrape_events 2 [] ⟨2025, 2, 1⟩ dupNodes =
      .ok [⟨⟨2025, 2, 28⟩, "Räkfrossa",
              "https://krogoco.se/jonkoping/event/rakfrossa/", true, none, none⟩,
           ⟨⟨2025, 3, 6⟩, "AW Med Quiz! Från Kl.17.00",
              "https://krogoco.se/jonkoping/event/aw-quiz/", false, some "17:00",
              none⟩] := by
  refine ⟨?_, rfl⟩
  intro months bl today nodes evs h
  unfold scrape_events at h
  cases hh : _last_day_of_month today months with
  | error e => simp only [hh] at h; exact absurd h (by simp)
  | ok horizon =>
  simp only [hh] at h
  exact scrapeLoop_nodup _ _ _ _ _ evs (by simp) (by simp) h

theorem c7_dedup_witness :
    (([⟨⟨2025, 2, 28⟩, "Räkfrossa",
          "https://krogoco.se/jonkoping/event/rakfrossa/", true, none, none⟩,
       ⟨⟨2025, 3, 6⟩, "AW Med Quiz! Från Kl.17.00",
          "https://krogoco.se/jonkoping/event/aw-quiz/", false, some "17:00",
          none⟩] : List CalendarEvent).map
      fun ev => (ev.date, ev.title, ev.url)).Nodup :=
  c7_dedup.1 2 [] ⟨2025, 2, 1⟩ dupNodes _ (by rfl)

/-! ## Claim C5 -/

/-- Claim C5: the inferred year is incremented by exactly 1 when and only
when a date node's month is strictly smaller than the previously seen
month; for the `rolloverNodes` sequence (month values `[12, 12, 1, 1, 2]`,
reference year 2025) the December events carry 2025 and the January and
February events carry 2026. -/
theorem c5_year_rollover :
    (∀ (pm y mm : Nat),
      (updateYear (some pm) y mm = y + 1 ↔ mm < pm) ∧ updateYear none y mm = y) ∧
    scrape_events 4 [] ⟨2025, 11, 1⟩ rolloverNodes =
      .ok [⟨⟨2025, 12, 6⟩, "Julbord",
              "https://krogoco.se/jonkoping/event/julbord/", true, none, none⟩,
           ⟨⟨2025, 12, 13⟩, "Julfest",
              "https://krogoco.se/jonkoping/event/julfest/", true, none, none⟩,
           ⟨⟨2026, 1, 3⟩, "Nyårsquiz",
              "https://krogoco.se/jonkoping/event/nyarsquiz/", true, none, none⟩,
           ⟨⟨2026, 1, 10⟩, "Vinterfest",
              "https://krogoco.se/jonkoping/event/vinterfest/", true, none, none⟩,
           ⟨⟨2026, 2, 14⟩, "Alla Hjärtans Dag",
              "https://krogoco.se/jonkoping/event/ahd/", true, none, none⟩] := by
  refine ⟨?_, rfl⟩
  intro pm y mm
  refine ⟨?_, rfl⟩
  by_cases hmm : mm < pm
  · simp [updateYear, hmm]
  · simp only [updateYear, if_neg hmm]
    constructor
    · intro h; omega
    · intro h; exact absurd h hmm

/-! ## Claim C8 -/

/-- Claim C8: when a node's text matches the `DD/MM` pattern but the
digits form an impossible calendar date for the inferred year, the
scrape aborts with an error at that node (it is not skipped), so no
event list — partial or otherwise — is returned; in particular
`badNodes` (day 32) makes `scrape_events` fail. -/
theorem c8_invalid_date_error :
    (∀ (bl : List String) (t hz : Date) (nd : H3) (rest : List H3)
      (st : ScrapeState) (dd mm : Nat),
      searchDate nd.text.toList = some (dd, mm) →
      isValidDate (updateYear st.prev_month st.inferred_year mm) mm dd = false →
      scrapeLoop bl t hz (nd :: rest) st = .error "ValueError: invalid date") ∧
    scrape_events 2 [] ⟨2025, 1, 1⟩ badNodes = .error "ValueError: invalid date" := by
  refine ⟨?_, rfl⟩
  intro bl t hz nd rest st dd mm hsd hv
  simp only [scrapeLoop, hsd]
  simp [mkDate, hv]

theorem c8_invalid_date_error_witness :
    scrapeLoop [] ⟨2025, 1, 1⟩ ⟨2025, 3, 31⟩
      badNodes { inferred_year := 2025 } = .error "ValueError: invalid date" := by
  have hb : badNodes = ⟨"lördag 32/01", none⟩ ::
      [⟨"Fest", some ("/jonkoping/event/fest/", "Fest")⟩] := rfl
  rw [hb]
  exact c8_invalid_date_error.1 [] ⟨2025, 1, 1⟩ ⟨2025, 3, 31⟩
    ⟨"lördag 32/01", none⟩ [⟨"Fest", some ("/jonkoping/event/fest/", "Fest")⟩]
    { inferred_year := 2025 } 32 1 (by rfl) (by rfl)

end Krogoco
